import Mathlib

/-!
Verification development for the playwright-sta test-automation repository.

The definitions below are shallow embeddings of the pure logic of the
repository: credential resolution (tests/mystapp/helpers `requireMystappUsers`),
the stress-driver worker pool and percentile selection, the offline perf
aggregator percentile, the date conversion `toIsoDate`, the grid readiness
polling loop, and the network-capture redaction (`redactHeaders`, `redactJson`).

JavaScript strings are modelled as Lean strings; the handful of string
operations the code uses (trim, split on a character, toLowerCase, padStart)
are re-implemented on character lists so that all definitions reduce inside
the kernel. JavaScript numbers only appear here in contexts where the float
arithmetic is exact (percentile levels 0.5/0.9/0.95/0.99 on the small literal
vectors of the claims), so indices are modelled with exact integer division.
-/

/-! ## Generic string helpers (models of the JS string operations used) -/

/-- Model of JS `String.prototype.toLowerCase` restricted to the characters
that actually occur in header names and JSON keys (ASCII). -/
def lowerChars (l : List Char) : List Char := l.map Char.toLower

/-- Lowercase a string, character-wise. -/
def lowerStr (s : String) : String := String.mk (lowerChars s.data)

/-- Model of JS whitespace for `trim` (ASCII whitespace; the repository only
trims plain spaces around usernames, passwords and dates). -/
def isWsChar (c : Char) : Bool := c = ' ' || c = '\t' || c = '\n' || c = '\r'

/-- Drop whitespace from the front and the back of a character list. -/
def trimChars (l : List Char) : List Char :=
  ((l.dropWhile isWsChar).reverse.dropWhile isWsChar).reverse

/-- Model of JS `String.prototype.trim`. -/
def jsTrim (s : String) : String := String.mk (trimChars s.data)

/-- Model of JS `split(sep)` for a one-character separator, on char lists. -/
def splitOnCharAux (c : Char) : List Char → List Char → List (List Char)
  | [], acc => [acc.reverse]
  | x :: xs, acc =>
    if x = c then acc.reverse :: splitOnCharAux c xs []
    else splitOnCharAux c xs (x :: acc)

/-- Model of JS `String.prototype.split` with a one-character separator. -/
def splitOnChar (c : Char) (s : String) : List String :=
  (splitOnCharAux c s.data []).map String.mk

/-- Model of JS `String.prototype.padStart(2, "0")`. -/
def padStart2 (s : String) : String :=
  String.mk (List.replicate (2 - s.data.length) '0' ++ s.data)

/-- Bool test for one list being a contiguous sublist of another
(model of JS substring matching used by the redaction regexes). -/
def containsSub (needle : List Char) : List Char → Bool
  | [] => needle.isEmpty
  | x :: xs => needle.isPrefixOf (x :: xs) || containsSub needle xs

/-- Case-insensitive substring test on strings. -/
def containsCI (hay pat : String) : Bool :=
  containsSub (lowerChars pat.data) (lowerChars hay.data)

/-! ## Network capture redaction (tests/mystapp/netlog.ts) -/

/-- The blocked header-name set of `redactHeaders` in netlog.ts
(`authorization`, `cookie`, `set-cookie`, `proxy-authorization`, `x-api-key`). -/
def blockedHeaderNames : List String :=
  ["authorization", "cookie", "set-cookie", "proxy-authorization", "x-api-key"]

/-- Model of `redactHeaders`: header maps are ordered name/value lists
(JS object entries); an entry is dropped exactly when its lowercased name is
in the blocked set, all other entries are copied unchanged. -/
def redactHeaders (headers : List (String × String)) : List (String × String) :=
  headers.filter (fun kv => !(blockedHeaderNames.contains (lowerStr kv.1)))

/- JSON-like values (model of the JS values `redactJson` traverses).
Arrays and objects are represented with dedicated list types so that all
recursions stay structural and kernel-reducible. -/
mutual
inductive Json where
  | null : Json
  | bool (b : Bool) : Json
  | num (n : Int) : Json
  | str (s : String) : Json
  | arr (items : JsonList) : Json
  | obj (entries : JsonObj) : Json

inductive JsonList where
  | nil : JsonList
  | cons (hd : Json) (tl : JsonList) : JsonList

inductive JsonObj where
  | nil : JsonObj
  | cons (k : String) (v : Json) (tl : JsonObj) : JsonObj
end

/-- Model of the key-redaction regex
`/(pass(word)?|token|secret|api[-_]?key|authorization|cookie)/i`:
a key matches iff it contains one of the alternatives, case-insensitively
(`pass(word)?` matches exactly when `pass` occurs). -/
def sensitiveKey (k : String) : Bool :=
  containsCI k "pass" || containsCI k "token" || containsCI k "secret" ||
  containsCI k "apikey" || containsCI k "api-key" || containsCI k "api_key" ||
  containsCI k "authorization" || containsCI k "cookie"

/-- Model of the string-redaction regex `/^bearer\s+/i`: lowercased string
starts with `bearer` followed by at least one whitespace character. -/
def isBearerString (s : String) : Bool :=
  match lowerChars s.data with
  | 'b' :: 'e' :: 'a' :: 'r' :: 'e' :: 'r' :: c :: _ => isWsChar c
  | _ => false

/- Model of `redactJson` from netlog.ts. Depth above 6 collapses the whole
value to the `[truncated]` marker; bearer-token strings become `[redacted]`;
arrays keep only their first 50 items (the slice is fused into `redactJsonArr`
via a fuel argument); object entries with a sensitive key become `[redacted]`,
all other entries recurse with depth + 1. -/
mutual
def redactJson (v : Json) (depth : Nat) : Json :=
  if depth > 6 then .str "[truncated]"
  else
    match v with
    | .null => .null
    | .bool b => .bool b
    | .num n => .num n
    | .str s => if isBearerString s then .str "[redacted]" else .str s
    | .arr items => .arr (redactJsonArr items 50 (depth + 1))
    | .obj entries => .obj (redactJsonObj entries (depth + 1))

def redactJsonArr (items : JsonList) (fuel : Nat) (depth : Nat) : JsonList :=
  match items, fuel with
  | .nil, _ => .nil
  | .cons _ _, 0 => .nil
  | .cons x xs, n + 1 => .cons (redactJson x depth) (redactJsonArr xs n depth)

def redactJsonObj (entries : JsonObj) (depth : Nat) : JsonObj :=
  match entries with
  | .nil => .nil
  | .cons k v tl =>
    .cons k (if sensitiveKey k then .str "[redacted]" else redactJson v depth)
      (redactJsonObj tl depth)
end

/- Whether a key occurs as an object key anywhere inside a JSON value. -/
mutual
def keyOccurs (k : String) : Json → Bool
  | .arr items => keyOccursList k items
  | .obj entries => keyOccursObj k entries
  | _ => false

def keyOccursList (k : String) : JsonList → Bool
  | .nil => false
  | .cons x xs => keyOccurs k x || keyOccursList k xs

def keyOccursObj (k : String) : JsonObj → Bool
  | .nil => false
  | .cons k2 v tl => k2 = k || keyOccurs k v || keyOccursObj k tl
end

/-- Whether a value is exactly the string literal `[redacted]`. -/
def isRedactedMarker : Json → Bool
  | .str s => s = "[redacted]"
  | _ => false

/- Safety predicate on redacted output: every object entry whose key matches
the sensitive-key patterns carries the `[redacted]` marker as its value. -/
mutual
def sensitiveEntriesRedacted : Json → Bool
  | .arr items => sensitiveEntriesRedactedList items
  | .obj entries => sensitiveEntriesRedactedObj entries
  | _ => true

def sensitiveEntriesRedactedList : JsonList → Bool
  | .nil => true
  | .cons x xs => sensitiveEntriesRedacted x && sensitiveEntriesRedactedList xs

def sensitiveEntriesRedactedObj : JsonObj → Bool
  | .nil => true
  | .cons k v tl =>
    (if sensitiveKey k then isRedactedMarker v else sensitiveEntriesRedacted v) &&
      sensitiveEntriesRedactedObj tl
end

/-- The `[redacted]` marker is not itself a bearer-token string. -/
theorem isBearerString_redacted : isBearerString "[redacted]" = false := by decide

/-- The `[truncated]` marker is not itself a bearer-token string. -/
theorem isBearerString_truncated : isBearerString "[truncated]" = false := by decide

/-- Unfolding lemma: above the depth bound everything truncates. -/
theorem redactJson_gt (v : Json) (d : Nat) (hd : 6 < d) :
    redactJson v d = .str "[truncated]" := by
  rw [redactJson.eq_def]; simp [hd]

/-- Unfolding lemma for `null` within the depth bound. -/
theorem redactJson_null (d : Nat) (hd : ¬ 6 < d) : redactJson .null d = .null := by
  rw [redactJson.eq_def]; simp [hd]

/-- Unfolding lemma for booleans within the depth bound. -/
theorem redactJson_bool (b : Bool) (d : Nat) (hd : ¬ 6 < d) :
    redactJson (.bool b) d = .bool b := by
  rw [redactJson.eq_def]; simp [hd]

/-- Unfolding lemma for numbers within the depth bound. -/
theorem redactJson_num (n : Int) (d : Nat) (hd : ¬ 6 < d) :
    redactJson (.num n) d = .num n := by
  rw [redactJson.eq_def]; simp [hd]

/-- Unfolding lemma for strings within the depth bound. -/
theorem redactJson_str (s : String) (d : Nat) (hd : ¬ 6 < d) :
    redactJson (.str s) d = if isBearerString s then .str "[redacted]" else .str s := by
  rw [redactJson.eq_def]; simp [hd]

/-- Unfolding lemma for arrays within the depth bound. -/
theorem redactJson_arr (items : JsonList) (d : Nat) (hd : ¬ 6 < d) :
    redactJson (.arr items) d = .arr (redactJsonArr items 50 (d + 1)) := by
  rw [redactJson.eq_def]; simp [hd]

/-- Unfolding lemma for objects within the depth bound. -/
theorem redactJson_obj (entries : JsonObj) (d : Nat) (hd : ¬ 6 < d) :
    redactJson (.obj entries) d = .obj (redactJsonObj entries (d + 1)) := by
  rw [redactJson.eq_def]; simp [hd]

/-- Unfolding lemma for the array worker on an empty list. -/
theorem redactJsonArr_nil (fuel d : Nat) : redactJsonArr .nil fuel d = .nil := by
  rw [redactJsonArr.eq_def]

/-- Unfolding lemma for the array worker with exhausted fuel (slice bound). -/
theorem redactJsonArr_zero (x : Json) (xs : JsonList) (d : Nat) :
    redactJsonArr (.cons x xs) 0 d = .nil := by
  rw [redactJsonArr.eq_def]

/-- Unfolding lemma for the array worker on a cons cell. -/
theorem redactJsonArr_cons (x : Json) (xs : JsonList) (n d : Nat) :
    redactJsonArr (.cons x xs) (n + 1) d = .cons (redactJson x d) (redactJsonArr xs n d) := by
  rw [redactJsonArr.eq_def]

/-- Unfolding lemma for the object worker on an empty object. -/
theorem redactJsonObj_nil (d : Nat) : redactJsonObj .nil d = .nil := by
  rw [redactJsonObj.eq_def]

/-- Unfolding lemma for the object worker on a cons cell. -/
theorem redactJsonObj_cons (k : String) (v : Json) (tl : JsonObj) (d : Nat) :
    redactJsonObj (.cons k v tl) d =
      .cons k (if sensitiveKey k then .str "[redacted]" else redactJson v d)
        (redactJsonObj tl d) := by
  rw [redactJsonObj.eq_def]

mutual
theorem redactJson_idem_aux (v : Json) (d : Nat) :
    redactJson (redactJson v d) d = redactJson v d := by
  by_cases hd : 6 < d
  · rw [redactJson_gt v d hd, redactJson_gt _ d hd]
  · cases v with
    | null => rw [redactJson_null d hd, redactJson_null d hd]
    | bool b => rw [redactJson_bool b d hd, redactJson_bool b d hd]
    | num n => rw [redactJson_num n d hd, redactJson_num n d hd]
    | str s =>
      by_cases hb : isBearerString s
      · rw [redactJson_str s d hd]
        simp [hb, redactJson_str _ d hd, isBearerString_redacted]
      · rw [redactJson_str s d hd]
        simp [hb, redactJson_str _ d hd]
    | arr items =>
      rw [redactJson_arr items d hd, redactJson_arr _ d hd,
        redactJsonArr_idem_aux items 50 (d + 1)]
    | obj entries =>
      rw [redactJson_obj entries d hd, redactJson_obj _ d hd,
        redactJsonObj_idem_aux entries (d + 1)]

theorem redactJsonArr_idem_aux (items : JsonList) (fuel d : Nat) :
    redactJsonArr (redactJsonArr items fuel d) fuel d = redactJsonArr items fuel d := by
  cases items with
  | nil => rw [redactJsonArr_nil, redactJsonArr_nil]
  | cons x xs =>
    cases fuel with
    | zero => rw [redactJsonArr_zero, redactJsonArr_nil]
    | succ n =>
      rw [redactJsonArr_cons, redactJsonArr_cons,
        redactJson_idem_aux x d, redactJsonArr_idem_aux xs n d]

theorem redactJsonObj_idem_aux (entries : JsonObj) (d : Nat) :
    redactJsonObj (redactJsonObj entries d) d = redactJsonObj entries d := by
  cases entries with
  | nil => rw [redactJsonObj_nil, redactJsonObj_nil]
  | cons k v tl =>
    by_cases hk : sensitiveKey k
    · rw [redactJsonObj_cons, redactJsonObj_cons]
      simp [hk, redactJsonObj_idem_aux tl d]
    · rw [redactJsonObj_cons, redactJsonObj_cons]
      simp [hk, redactJson_idem_aux v d, redactJsonObj_idem_aux tl d]
end

/-- Claim C9: the JSON redaction of the network recorder is idempotent — the
redaction markers, the array clipping and the key-pattern replacement are all
fixed points, so redacting twice at the same starting depth equals redacting
once. -/
theorem spec_C9_redactJson_idempotent :
    ∀ (v : Json) (d : Nat), redactJson (redactJson v d) d = redactJson v d :=
  fun v d => redactJson_idem_aux v d

/-- The safety predicate holds on all atoms. -/
theorem sensitiveEntriesRedacted_atom (s : String) :
    sensitiveEntriesRedacted (.str s) = true := rfl

/-- The safety predicate on an array defers to the item list. -/
theorem sensitiveEntriesRedacted_arr (items : JsonList) :
    sensitiveEntriesRedacted (.arr items) = sensitiveEntriesRedactedList items := rfl

/-- The safety predicate on an object defers to the entry list. -/
theorem sensitiveEntriesRedacted_obj (entries : JsonObj) :
    sensitiveEntriesRedacted (.obj entries) = sensitiveEntriesRedactedObj entries := rfl

/-- The safety predicate on a cons item list splits into head and tail. -/
theorem sensitiveEntriesRedactedList_cons (x : Json) (xs : JsonList) :
    sensitiveEntriesRedactedList (.cons x xs) =
      (sensitiveEntriesRedacted x && sensitiveEntriesRedactedList xs) := rfl

/-- The safety predicate on a cons entry list splits into entry and tail. -/
theorem sensitiveEntriesRedactedObj_cons (k : String) (v : Json) (tl : JsonObj) :
    sensitiveEntriesRedactedObj (.cons k v tl) =
      ((if sensitiveKey k then isRedactedMarker v else sensitiveEntriesRedacted v) &&
        sensitiveEntriesRedactedObj tl) := rfl

mutual
theorem redactJson_safe_aux (v : Json) (d : Nat) :
    sensitiveEntriesRedacted (redactJson v d) = true := by
  by_cases hd : 6 < d
  · rw [redactJson_gt v d hd]; rfl
  · cases v with
    | null => rw [redactJson_null d hd]; rfl
    | bool b => rw [redactJson_bool b d hd]; rfl
    | num n => rw [redactJson_num n d hd]; rfl
    | str s =>
      rw [redactJson_str s d hd]
      cases hb : isBearerString s <;> simp [hb] <;> rfl
    | arr items =>
      rw [redactJson_arr items d hd, sensitiveEntriesRedacted_arr]
      exact redactJsonArr_safe_aux items 50 (d + 1)
    | obj entries =>
      rw [redactJson_obj entries d hd, sensitiveEntriesRedacted_obj]
      exact redactJsonObj_safe_aux entries (d + 1)

theorem redactJsonArr_safe_aux (items : JsonList) (fuel d : Nat) :
    sensitiveEntriesRedactedList (redactJsonArr items fuel d) = true := by
  cases items with
  | nil => rw [redactJsonArr_nil]; rfl
  | cons x xs =>
    cases fuel with
    | zero => rw [redactJsonArr_zero]; rfl
    | succ n =>
      rw [redactJsonArr_cons, sensitiveEntriesRedactedList_cons,
        redactJson_safe_aux x d, redactJsonArr_safe_aux xs n d]
      rfl

theorem redactJsonObj_safe_aux (entries : JsonObj) (d : Nat) :
    sensitiveEntriesRedactedObj (redactJsonObj entries d) = true := by
  cases entries with
  | nil => rw [redactJsonObj_nil]; rfl
  | cons k v tl =>
    rw [redactJsonObj_cons, sensitiveEntriesRedactedObj_cons]
    by_cases hk : sensitiveKey k
    · simp [hk, redactJsonObj_safe_aux tl d, isRedactedMarker]
    · simp [hk, redactJsonObj_safe_aux tl d, redactJson_safe_aux v d]
end

/-- A Bool-true witness that the key `password` matches the sensitive-key
pattern of the redaction regex. -/
theorem sensitiveKey_password : sensitiveKey "password" = true := by decide

/-- An object whose `password` entry sits below seven wrapper objects, so the
object holding it is processed at depth 7, beyond the depth bound of 6. -/
def deepPasswordJson : Json :=
  .obj (.cons "a" (.obj (.cons "a" (.obj (.cons "a" (.obj (.cons "a"
    (.obj (.cons "a" (.obj (.cons "a" (.obj (.cons "a"
      (.obj (.cons "password" (.str "hunter2") .nil))
    .nil)) .nil)) .nil))
  .nil)) .nil)) .nil)) .nil)

/-- Claim C8 counterexample: the claim states that every object entry keyed
`password`, at every nesting depth, is mapped to the `[redacted]` string in
the captured output. On `deepPasswordJson` the object holding the `password`
entry is reached at depth 7 and is collapsed wholesale to the `[truncated]`
marker, so the `password` key does not occur in the output at all — in
particular its value is not mapped to `[redacted]`. -/
theorem spec_C8_cex_deep_password_truncated :
    keyOccurs "password" deepPasswordJson = true ∧
    keyOccurs "password" (redactJson deepPasswordJson 0) = false ∧
    redactJson deepPasswordJson 0 =
      .obj (.cons "a" (.obj (.cons "a" (.obj (.cons "a" (.obj (.cons "a"
        (.obj (.cons "a" (.obj (.cons "a" (.obj (.cons "a"
          (.str "[truncated]")
        .nil)) .nil)) .nil))
      .nil)) .nil)) .nil)) .nil) :=
  ⟨rfl, rfl, rfl⟩

/-- Claim C8 (amended): whenever an object entry whose key matches the
sensitive-key patterns (in particular `password`) occurs in the redacted
output, its value is the string `[redacted]` — so the original value never
appears; entries nested beyond the depth bound 6 are replaced wholesale by the
`[truncated]` marker and need not occur at all. Within the bound a `password`
entry is mapped to `[redacted]`, as the concrete conjunct shows. -/
theorem spec_C8_password_redacted :
    (∀ (v : Json) (d : Nat), sensitiveEntriesRedacted (redactJson v d) = true) ∧
    redactJson (.obj (.cons "password" (.str "hunter2") .nil)) 0 =
      .obj (.cons "password" (.str "[redacted]") .nil) :=
  ⟨fun v d => redactJson_safe_aux v d, rfl⟩

/-- Claim C7 counterexample: the claim lists `api-key` among the header names
that are removed, but the blocked set of `redactHeaders` contains `x-api-key`,
not `api-key`; a header literally named `api-key` survives redaction. -/
theorem spec_C7_cex_api_key_header_kept :
    redactHeaders [("api-key", "k1")] = [("api-key", "k1")] := by decide

/-- Claim C7 (amended): the captured header map contains no entry whose name,
compared case-insensitively, is authorization, cookie, set-cookie,
proxy-authorization, or x-api-key (not api-key), and every entry whose
lowercased name is outside that blocked set is kept with name and value
unchanged; the output is a sublist of the input, so nothing else is added. -/
theorem spec_C7_header_redaction :
    ∀ headers : List (String × String),
      (∀ kv ∈ redactHeaders headers, ¬ blockedHeaderNames.contains (lowerStr kv.1)) ∧
      (∀ kv ∈ headers, ¬ blockedHeaderNames.contains (lowerStr kv.1) →
        kv ∈ redactHeaders headers) ∧
      (redactHeaders headers).Sublist headers := by
  intro headers
  refine ⟨?_, ?_, List.filter_sublist headers⟩
  · intro kv hkv
    have := List.of_mem_filter hkv
    simpa using this
  · intro kv hkv hblock
    exact List.mem_filter.mpr ⟨hkv, by simpa using hblock⟩

/-! ## Credential resolution (tests/mystapp/helpers, requireMystappUsers) -/

/-- A resolved credential pair (`MystappUser` in helpers). -/
structure MystappUser where
  username : String
  password : String
deriving DecidableEq, Repr

/-- The optional local-config file `.mystapp.local.json` (fields read by
`requireMystappUsers`). -/
structure MystappLocalCfg where
  user : Option String := none
  users : Option (List String) := none
  password : Option String := none
  userPrefixFld : Option String := none
deriving Repr

/-- The environment variables read by `requireMystappUsers`. A `none` models
an unset variable; `some s` a set value (possibly empty or padded). The field
for `MYSTAPP_USER_PREFIX` is named `MYSTAPP_USER_PREFIX_v`. -/
structure MystappEnv where
  MYSTAPP_USERS : Option String := none
  MYSTAPP_USER : Option String := none
  MYSTAPP_USERNAME : Option String := none
  MYSTAPP_USER_PREFIX_v : Option String := none
  MYSTAPP_PASSWORD : Option String := none
  MYSTAPP_REUSE_SINGLE_USER : Option String := none
deriving Repr

/-- Model of the JS idiom `(raw).trim() || undefined`: trim, then treat the
empty result as absent. -/
def trimToOption (s : String) : Option String :=
  let t := jsTrim s
  if t = "" then none else some t

/-- The resolved shared password:
`(process.env.MYSTAPP_PASSWORD ?? local?.password ?? "").trim() || undefined`. -/
def resolvedPassword (env : MystappEnv) (local_ : Option MystappLocalCfg) : Option String :=
  trimToOption ((env.MYSTAPP_PASSWORD).getD (((local_.bind (·.password))).getD ""))

/-- The resolved CSV user list variable:
`(process.env.MYSTAPP_USERS ?? "").trim() || undefined`. -/
def resolvedUsersCsv (env : MystappEnv) : Option String :=
  trimToOption ((env.MYSTAPP_USERS).getD "")

/-- The resolved generation root:
`(process.env.MYSTAPP_USER_PREFIX ?? local?.userPrefix ?? "").trim() || undefined`. -/
def resolvedUserRoot (env : MystappEnv) (local_ : Option MystappLocalCfg) : Option String :=
  trimToOption ((env.MYSTAPP_USER_PREFIX_v).getD (((local_.bind (·.userPrefixFld))).getD ""))

/-- The resolved single user:
`(process.env.MYSTAPP_USER ?? process.env.MYSTAPP_USERNAME ?? local?.user ?? "").trim() || undefined`. -/
def resolvedSingleUser (env : MystappEnv) (local_ : Option MystappLocalCfg) : Option String :=
  trimToOption ((env.MYSTAPP_USER).getD ((env.MYSTAPP_USERNAME).getD
    (((local_.bind (·.user))).getD "")))

/-- The explicit username list: when the CSV variable is set, split on commas,
trim each part and drop empties; otherwise take the local-config `users`
array (if any), trimmed and with empties dropped. -/
def explicitUsernames (env : MystappEnv) (local_ : Option MystappLocalCfg) : List String :=
  match resolvedUsersCsv env with
  | some csv => ((splitOnChar ',' csv).map jsTrim).filter (fun u => u ≠ "")
  | none => (((local_.bind (·.users)).getD []).map jsTrim).filter (fun u => u ≠ "")

/-- The reuse opt-in flag: `(process.env.MYSTAPP_REUSE_SINGLE_USER ?? "").trim() === "1"`. -/
def reuseSingleUserFlag (env : MystappEnv) : Bool :=
  jsTrim ((env.MYSTAPP_REUSE_SINGLE_USER).getD "") = "1"

/-- Model of `requireMystappUsers(count)`: thrown configuration errors become
`Except.error`. Source order: explicit list first, then single user, then
generated users from the root plus a zero-padded 1-based index. -/
def requireMystappUsers (env : MystappEnv) (local_ : Option MystappLocalCfg)
    (count : Nat) : Except String (List MystappUser) :=
  let explicit := explicitUsernames env local_
  if explicit.length > 0 then
    match resolvedPassword env local_ with
    | none => .error "Missing MYSTAPP_PASSWORD. When using MYSTAPP_USERS, provide a shared password via MYSTAPP_PASSWORD."
    | some pw =>
      if explicit.length < count then
        .error "Mystapp user list has fewer users than required."
      else
        .ok ((explicit.take count).map (fun username => ⟨username, pw⟩))
  else
    match resolvedSingleUser env local_ with
    | some u =>
      match resolvedPassword env local_ with
      | none => .error "Missing MYSTAPP_PASSWORD. When using a single user, provide MYSTAPP_PASSWORD."
      | some pw =>
        if count ≠ 1 then
          if !reuseSingleUserFlag env then
            .error "A single Mystapp user is configured, but more are required. Provide MYSTAPP_USERS or MYSTAPP_USER_PREFIX, or set MYSTAPP_REUSE_SINGLE_USER=1."
          else
            .ok (List.replicate count ⟨u, pw⟩)
        else
          .ok [⟨u, pw⟩]
    | none =>
      match resolvedUserRoot env local_, resolvedPassword env local_ with
      | some root, some pw =>
        .ok ((List.range count).map (fun i => ⟨root ++ padStart2 (toString (i + 1)), pw⟩))
      | _, _ =>
        .error "Missing mystapp credentials. Set MYSTAPP_USERS + MYSTAPP_PASSWORD, or MYSTAPP_USER + MYSTAPP_PASSWORD, or MYSTAPP_USER_PREFIX + MYSTAPP_PASSWORD, or use .mystapp.local.json."

/-- Claim C2: credential resolution contract of `requireMystappUsers(count)`:
sources are consulted in fixed precedence (explicit list, then single user,
then generated). (a) A non-empty explicit list with a shared password yields
the first `count` usernames in order paired with the password — concretely
`MYSTAPP_USERS="a,b,c"` with count 2 yields `[{a,pw},{b,pw}]` — and fails with
a configuration error when the list is shorter than `count`. (b) A single
configured user yields that credential for count 1; for any other count it is
a configuration error unless `MYSTAPP_REUSE_SINGLE_USER=1`, in which case it
yields `count` identical credentials. (c) A configured generation root yields
`count` usernames `root ++ zero-padded (i+1)`. With no usable source the
result is a configuration error. -/
theorem spec_C2_requireMystappUsers_contract :
    ∀ (env : MystappEnv) (local_ : Option MystappLocalCfg) (count : Nat),
      (∀ pw, resolvedPassword env local_ = some pw →
        explicitUsernames env local_ ≠ [] →
        (count ≤ (explicitUsernames env local_).length →
          requireMystappUsers env local_ count =
            .ok (((explicitUsernames env local_).take count).map (fun u => ⟨u, pw⟩))) ∧
        ((explicitUsernames env local_).length < count →
          ∃ msg, requireMystappUsers env local_ count = .error msg)) ∧
      (requireMystappUsers
          { MYSTAPP_USERS := some "a,b,c", MYSTAPP_PASSWORD := some "pw" } none 2 =
        .ok [⟨"a", "pw"⟩, ⟨"b", "pw"⟩]) ∧
      (∀ u pw, explicitUsernames env local_ = [] →
        resolvedSingleUser env local_ = some u →
        resolvedPassword env local_ = some pw →
        (count = 1 → requireMystappUsers env local_ count = .ok [⟨u, pw⟩]) ∧
        (count ≠ 1 → reuseSingleUserFlag env = false →
          ∃ msg, requireMystappUsers env local_ count = .error msg) ∧
        (count ≠ 1 → reuseSingleUserFlag env = true →
          requireMystappUsers env local_ count = .ok (List.replicate count ⟨u, pw⟩))) ∧
      (∀ root pw, explicitUsernames env local_ = [] →
        resolvedSingleUser env local_ = none →
        resolvedUserRoot env local_ = some root →
        resolvedPassword env local_ = some pw →
        requireMystappUsers env local_ count =
          .ok ((List.range count).map (fun i => ⟨root ++ padStart2 (toString (i + 1)), pw⟩))) ∧
      (explicitUsernames env local_ = [] →
        resolvedSingleUser env local_ = none →
        (resolvedUserRoot env local_ = none ∨ resolvedPassword env local_ = none) →
        ∃ msg, requireMystappUsers env local_ count = .error msg) := by
  intro env local_ count
  refine ⟨?_, by rfl, ?_, ?_, ?_⟩
  · intro pw hpw hne
    have hlen : (explicitUsernames env local_).length > 0 :=
      List.length_pos.mpr hne
    constructor
    · intro hle
      simp [requireMystappUsers, hlen, hpw, Nat.not_lt.mpr hle]
    · intro hlt
      simp [requireMystappUsers, hlen, hpw, hlt]
  · intro u pw hexp hu hpw
    have hlen : ¬ (explicitUsernames env local_).length > 0 := by simp [hexp]
    refine ⟨?_, ?_, ?_⟩
    · intro hc
      simp [requireMystappUsers, hlen, hu, hpw, hc]
    · intro hc hflag
      simp [requireMystappUsers, hlen, hu, hpw, hc, hflag]
    · intro hc hflag
      simp [requireMystappUsers, hlen, hu, hpw, hc, hflag]
  · intro root pw hexp hu hroot hpw
    have hlen : ¬ (explicitUsernames env local_).length > 0 := by simp [hexp]
    simp [requireMystappUsers, hlen, hu, hroot, hpw]
  · intro hexp hu hnone
    have hlen : ¬ (explicitUsernames env local_).length > 0 := by simp [hexp]
    rcases hnone with h | h
    · simp [requireMystappUsers, hlen, hu, h]
    · cases hroot : resolvedUserRoot env local_ with
      | none => simp [requireMystappUsers, hlen, hu, hroot, h]
      | some root => simp [requireMystappUsers, hlen, hu, hroot, h]

/-- Claim C2 witness: the explicit-list conjunct applied to the concrete
environment `MYSTAPP_USERS="a,b,c"`, `MYSTAPP_PASSWORD="pw"`, count 2. -/
theorem spec_C2_requireMystappUsers_contract_witness :
    requireMystappUsers
        { MYSTAPP_USERS := some "a,b,c", MYSTAPP_PASSWORD := some "pw" } none 2 =
      .ok [⟨"a", "pw"⟩, ⟨"b", "pw"⟩] := by
  have h := (spec_C2_requireMystappUsers_contract
      { MYSTAPP_USERS := some "a,b,c", MYSTAPP_PASSWORD := some "pw" } none 2).1
      "pw" (by decide) (by decide) |>.1 (by decide)
  simpa using h

/-! ## Percentile selection: stress spec (unnamed stress file) vs offline
aggregator (scripts/mystapp-perf-summary.mjs).

Durations are naturals (milliseconds). `timings.sort((a, b) => a - b)` is an
ascending sort; on naturals any ascending reordering is the unique sorted
list, modelled by insertion sort. Percentile levels appear in the code as the
float literals 0.5/0.9/0.95/0.99 (stress) and 50/90/95/99 over 100
(aggregator); both are exact in binary-float arithmetic for the list lengths
considered here, so the index arithmetic is modelled with exact integer
division: `Math.floor(len * (pct/100)) = len * pct / 100` in `Nat`, and
`Math.ceil((p/100) * len) = (p * len + 99) / 100` in `Nat`. -/

/-- Insert into an ascending list, keeping it ascending. -/
def insertAsc (x : Nat) : List Nat → List Nat
  | [] => [x]
  | y :: ys => if x ≤ y then x :: y :: ys else y :: insertAsc x ys

/-- Ascending sort (model of `array.sort((a, b) => a - b)`). -/
def sortAsc (l : List Nat) : List Nat := l.foldr insertAsc []

/-- The stress-spec percentile selection
`timings[Math.floor(timings.length * p)] ?? 0`, with `p = pct / 100`;
out-of-range indexing falls back to 0 via the `?? 0` default. -/
def stressPick (timings : List Nat) (pct : Nat) : Nat :=
  (sortAsc timings).getD (timings.length * pct / 100) 0

/-- The stress-spec maximum `timings[timings.length - 1] ?? 0`. -/
def stressMaxTiming (timings : List Nat) : Nat :=
  (sortAsc timings).getD (timings.length - 1) 0

/-- The offline aggregator `percentile(values, p)` from
scripts/mystapp-perf-summary.mjs: undefined on an empty list, otherwise
`sorted[Math.min(len - 1, Math.max(0, Math.ceil((p / 100) * len) - 1))]`. -/
def percentile (values : List Nat) (p : Nat) : Option Nat :=
  if values.length = 0 then none
  else
    let sorted := sortAsc values
    let idx : Int := Int.ofNat ((p * sorted.length + 99) / 100) - 1
    let clamped : Int := min (Int.ofNat (sorted.length - 1)) (max 0 idx)
    some (sorted.getD clamped.toNat 0)

/-- Claim C3: the stress scenario and the offline aggregator use different
percentile-index conventions (`floor(p * len)` vs `ceil(p * len) - 1`
clamped), and the difference is observable: on the sorted two-element list
`[100, 200]` the stress driver p50 selects 200 while the aggregator p50
selects 100. -/
theorem spec_C3_percentile_conventions_differ :
    stressPick [100, 200] 50 = 200 ∧
    percentile [100, 200] 50 = some 100 ∧
    some (stressPick [100, 200] 50) ≠ percentile [100, 200] 50 := by
  refine ⟨rfl, rfl, by decide⟩

/-- Claim C4 counterexample: for durations `[100, 200, 300, 400, 500]` the
stress driver p50 is `sorted[Math.floor(5 * 0.5)] = sorted[2] = 300`, not the
element at index `floor(0.5 * 5) - 1 = 1` (which is 200), so the claimed
index convention is wrong for this fixed vector. -/
theorem spec_C4_cex_p50_index :
    stressPick [100, 200, 300, 400, 500] 50 = 300 ∧
    (sortAsc [100, 200, 300, 400, 500]).getD 1 0 = 200 ∧
    stressPick [100, 200, 300, 400, 500] 50 ≠
      (sortAsc [100, 200, 300, 400, 500]).getD 1 0 := by decide

/-- Claim C4 (amended): for the fixed duration array `[100, 200, 300, 400,
500]`, the stress driver p50 selects, after ascending sort, the element at
index `floor(0.5 * 5) = 2` of the sorted array, which is 300. (The offline
aggregator also yields 300 here: `ceil(2.5) - 1 = 2`.) -/
theorem spec_C4_p50_fixed_vector :
    stressPick [100, 200, 300, 400, 500] 50 =
      (sortAsc [100, 200, 300, 400, 500]).getD 2 0 ∧
    5 * 50 / 100 = 2 ∧
    stressPick [100, 200, 300, 400, 500] 50 = 300 ∧
    percentile [100, 200, 300, 400, 500] 50 = some 300 := by decide

/-- The SLO assertion block of the stress spec: each configured threshold is
compared with the corresponding statistic (`expect(x).toBeLessThanOrEqual(m)`);
an absent threshold checks nothing. Thresholds are integers. -/
def sloChecksPass (timings : List Nat)
    (maxAllowed p95Allowed p99Allowed : Option Int) : Prop :=
  (∀ m, maxAllowed = some m → (stressMaxTiming timings : Int) ≤ m) ∧
  (∀ m, p95Allowed = some m → (stressPick timings 95 : Int) ≤ m) ∧
  (∀ m, p99Allowed = some m → (stressPick timings 99 : Int) ≤ m)

/-- Claim C10: on an empty duration list (N = 0) every percentile and the
maximum evaluate to 0 — out-of-range indexing falls back to 0 via `?? 0`
instead of erroring — and consequently the SLO assertions pass for every
configuration of non-negative thresholds even though no login ran. -/
theorem spec_C10_empty_run_slo_passes :
    ∀ maxAllowed p95Allowed p99Allowed : Option Int,
      (∀ m, maxAllowed = some m → 0 ≤ m) →
      (∀ m, p95Allowed = some m → 0 ≤ m) →
      (∀ m, p99Allowed = some m → 0 ≤ m) →
      stressPick [] 50 = 0 ∧ stressPick [] 90 = 0 ∧ stressPick [] 95 = 0 ∧
      stressPick [] 99 = 0 ∧ stressMaxTiming [] = 0 ∧
      sloChecksPass [] maxAllowed p95Allowed p99Allowed := by
  intro maxAllowed p95Allowed p99Allowed hmax h95 h99
  refine ⟨rfl, rfl, rfl, rfl, rfl, ?_, ?_, ?_⟩
  · intro m hm
    have h0 : stressMaxTiming [] = 0 := rfl
    rw [h0]
    exact_mod_cast hmax m hm
  · intro m hm
    have h0 : stressPick [] 95 = 0 := rfl
    rw [h0]
    exact_mod_cast h95 m hm
  · intro m hm
    have h0 : stressPick [] 99 = 0 := rfl
    rw [h0]
    exact_mod_cast h99 m hm

/-- Claim C10 witness: concrete thresholds max = 0 ms, p95 = 1000 ms, p99
unset; the empty run passes all three checks. -/
theorem spec_C10_empty_run_slo_passes_witness :
    stressPick [] 50 = 0 ∧ stressPick [] 90 = 0 ∧ stressPick [] 95 = 0 ∧
    stressPick [] 99 = 0 ∧ stressMaxTiming [] = 0 ∧
    sloChecksPass [] (some 0) (some 1000) none :=
  spec_C10_empty_run_slo_passes (some 0) (some 1000) none
    (by intro m hm; simp at hm; omega)
    (by intro m hm; simp at hm; omega)
    (by intro m hm; simp at hm)

/-! ## Date conversion (invoices spec: toIsoDate, fillDateInput) -/

/-- The two supported date formats (`MYSTAPP_DATE_FORMAT`). -/
inductive DateFormat where
  | ddmm : DateFormat
  | mmdd : DateFormat
deriving DecidableEq, Repr

/-- Model of `toIsoDate(raw, format)`: trim, split on `/`, trim the parts;
require exactly three parts, a 4-digit year and 1-2 digit day and month;
return `yyyy-mm-dd` with day and month zero-padded to two digits. Thrown
errors become `Except.error`. -/
def toIsoDate (raw : String) (format : DateFormat) : Except String String :=
  let parts := (splitOnChar '/' (jsTrim raw)).map jsTrim
  match parts with
  | [a, b, c] =>
    let dd := if format = .ddmm then a else b
    let mm := if format = .ddmm then b else a
    let yyyy := c
    if ¬ (yyyy.data.length = 4 ∧ yyyy.data.all Char.isDigit = true) then
      .error "Invalid year."
    else if ¬ (1 ≤ dd.data.length ∧ dd.data.length ≤ 2 ∧ dd.data.all Char.isDigit = true) ∨
        ¬ (1 ≤ mm.data.length ∧ mm.data.length ≤ 2 ∧ mm.data.all Char.isDigit = true) then
      .error "Invalid day or month."
    else
      .ok (yyyy ++ "-" ++ padStart2 mm ++ "-" ++ padStart2 dd)
  | _ => .error "Invalid date. Expected three slash-separated parts."

/-- The read-back value `fillDateInput` drives the input towards:
`inputType === "date" ? toIsoDate(rawDate, format) : rawDate` — every fill
attempt is accepted exactly when the read-back equals this value. -/
def fillDateExpected (isNativeDateInput : Bool) (rawDate : String)
    (format : DateFormat) : Except String String :=
  if isNativeDateInput then toIsoDate rawDate format else .ok rawDate

/-- Claim C6: the expected read-back value of the date-field filler is the
ISO conversion of the raw string exactly when the input is natively typed as
a date, and the raw string otherwise; concretely, raw `02/01/2025` under
MM/DD/YYYY converts to `2025-02-01`, and the same raw string under
DD/MM/YYYY converts to `2025-01-02`. -/
theorem spec_C6_date_conversion :
    (∀ (raw : String) (format : DateFormat),
      fillDateExpected true raw format = toIsoDate raw format ∧
      fillDateExpected false raw format = .ok raw) ∧
    toIsoDate "02/01/2025" .mmdd = .ok "2025-02-01" ∧
    toIsoDate "02/01/2025" .ddmm = .ok "2025-01-02" := by
  exact ⟨fun raw format => ⟨rfl, rfl⟩, rfl, rfl⟩

/-! ## Grid readiness (invoices spec: clickSecondRowInvoice and
clickSecondRowInvoiceAndGetInvoiceValue, shared polling structure).

The loop polls the DOM every 250 ms against a 45 s deadline: each iteration
reads the data-row count (the max of the CSS and role-based counts, modelled
as one number), breaks when it is at least 2, otherwise remembers a visible
"No record found" indicator in `sawEmpty` and sleeps. After the loop a final
count read decides the outcome. The DOM across poll instants is modelled as a
trace `env : Nat → GridObs`; the poll budget is 45000 / 250 iterations. -/

/-- One polled observation of the grid. -/
structure GridObs where
  rowCount : Nat
  noRecordsVisible : Bool

/-- The polling loop: returns the poll index at which it stopped together
with the accumulated `sawEmpty` flag. -/
def gridLoop (env : Nat → GridObs) : Nat → Nat → Bool → Nat × Bool
  | k, 0, sawEmpty => (k, sawEmpty)
  | k, fuel + 1, sawEmpty =>
    if 2 ≤ (env k).rowCount then (k, sawEmpty)
    else gridLoop env (k + 1) fuel (sawEmpty || (env k).noRecordsVisible)

/-- Number of 250 ms polls within the 45 s deadline. -/
def gridPollBudget : Nat := 45000 / 250

/-- Outcomes of the second-row click helpers: clicked a row, returned without
clicking (confirmed empty with `allowEmpty`), threw the confirmed-empty
error, or threw the ambiguous did-not-load error. -/
inductive GridOutcome where
  | rowClicked : GridOutcome
  | returnedNotClicked : GridOutcome
  | errorNoRecords : GridOutcome
  | errorNotLoaded : GridOutcome
deriving DecidableEq, Repr

/-- The decision structure shared by both second-row click helpers: run the
polling loop, re-read the count, and branch exactly as the source does. -/
def clickSecondRowOutcome (env : Nat → GridObs) (polls : Nat)
    (allowEmpty : Bool) : GridOutcome :=
  let r := gridLoop env 0 polls false
  let countFinal := (env r.1).rowCount
  if countFinal < 2 ∧ r.2 = true then
    if allowEmpty then .returnedNotClicked else .errorNoRecords
  else if countFinal < 2 then .errorNotLoaded
  else .rowClicked

/-- Bool recording whether the empty indicator is visible at some poll in
the window `[k, k + fuel)`. -/
def anyEmptyFlag (env : Nat → GridObs) : Nat → Nat → Bool
  | _, 0 => false
  | k, fuel + 1 => (env k).noRecordsVisible || anyEmptyFlag env (k + 1) fuel

/-- The empty-indicator accumulator is the existential over the window. -/
theorem anyEmptyFlag_iff (env : Nat → GridObs) :
    ∀ (fuel k : Nat), anyEmptyFlag env k fuel = true ↔
      ∃ j, k ≤ j ∧ j < k + fuel ∧ (env j).noRecordsVisible = true := by
  intro fuel
  induction fuel with
  | zero => intro k; simp [anyEmptyFlag]; omega
  | succ n ih =>
    intro k
    simp only [anyEmptyFlag, Bool.or_eq_true, ih (k + 1)]
    constructor
    · rintro (h | ⟨j, hj1, hj2, hj3⟩)
      · exact ⟨k, by omega, by omega, h⟩
      · exact ⟨j, by omega, by omega, hj3⟩
    · rintro ⟨j, hj1, hj2, hj3⟩
      rcases Nat.eq_or_lt_of_le hj1 with rfl | hlt
      · exact Or.inl hj3
      · exact Or.inr ⟨j, by omega, by omega, hj3⟩

/-- The loop stops either at the end of the window or at an observation with
at least two rows. -/
theorem gridLoop_exit (env : Nat → GridObs) :
    ∀ (fuel k : Nat) (saw : Bool),
      (gridLoop env k fuel saw).1 = k + fuel ∨
        2 ≤ (env (gridLoop env k fuel saw).1).rowCount := by
  intro fuel
  induction fuel with
  | zero => intro k saw; left; simp [gridLoop]
  | succ n ih =>
    intro k saw
    by_cases h2 : 2 ≤ (env k).rowCount
    · right; simp [gridLoop, h2]
    · rcases ih (k + 1) (saw || (env k).noRecordsVisible) with h | h
      · left; simp [gridLoop, h2, h]; omega
      · right; simpa [gridLoop, h2] using h

/-- If some observation in the window has at least two rows, the loop stops
at an observation with at least two rows. -/
theorem gridLoop_break (env : Nat → GridObs) :
    ∀ (fuel k : Nat) (saw : Bool),
      (∃ j, k ≤ j ∧ j < k + fuel ∧ 2 ≤ (env j).rowCount) →
      2 ≤ (env (gridLoop env k fuel saw).1).rowCount := by
  intro fuel
  induction fuel with
  | zero => rintro k saw ⟨j, hj1, hj2, _⟩; omega
  | succ n ih =>
    rintro k saw ⟨j, hj1, hj2, hj3⟩
    by_cases h2 : 2 ≤ (env k).rowCount
    · simp only [gridLoop, if_pos h2]
      exact h2
    · have hjk : j ≠ k := fun h => h2 (h ▸ hj3)
      have : 2 ≤ (env (gridLoop env (k + 1) n (saw || (env k).noRecordsVisible)).1).rowCount :=
        ih (k + 1) _ ⟨j, by omega, by omega, hj3⟩
      simpa [gridLoop, h2] using this

/-- If no observation in the window reaches two rows, the loop runs the whole
window and its flag is the disjunction of the starting flag with the
indicator observations. -/
theorem gridLoop_full (env : Nat → GridObs) :
    ∀ (fuel k : Nat) (saw : Bool),
      (∀ j, k ≤ j → j < k + fuel → (env j).rowCount < 2) →
      gridLoop env k fuel saw = (k + fuel, saw || anyEmptyFlag env k fuel) := by
  intro fuel
  induction fuel with
  | zero => intro k saw _; simp [gridLoop, anyEmptyFlag]
  | succ n ih =>
    intro k saw hall
    have h2 : ¬ 2 ≤ (env k).rowCount := by
      have := hall k (Nat.le_refl k) (by omega)
      omega
    have := ih (k + 1) (saw || (env k).noRecordsVisible)
      (fun j hj1 hj2 => hall j (by omega) (by omega))
    simp only [gridLoop, h2, if_false, this, anyEmptyFlag]
    have h1 : k + 1 + n = k + (n + 1) := by omega
    rw [h1, Bool.or_assoc]

/-- Claim C5: grid readiness over the finite observation trace of the 250 ms
polling loop with 45 s deadline (180 polls). (i) if some observation before
the deadline shows at least 2 rows the outcome is ready-with-data; (ii) the
loop never yields a confirmed-empty outcome before the deadline — a
confirmed-empty outcome forces the loop to have consumed the full poll
budget; (iii) if the deadline elapses with the row count still below 2 and
the indicator was observed at least once, the outcome is confirmed empty
(not-clicked when empty is allowed, an error otherwise); (iv) if the deadline
elapses with the row count below 2 and the indicator never observed, the
outcome is the ambiguous did-not-load error. -/
theorem spec_C5_grid_readiness :
    ∀ (env : Nat → GridObs) (allowEmpty : Bool),
      ((∃ k, k < gridPollBudget ∧ 2 ≤ (env k).rowCount) →
        clickSecondRowOutcome env gridPollBudget allowEmpty = .rowClicked) ∧
      ((clickSecondRowOutcome env gridPollBudget allowEmpty = .returnedNotClicked ∨
          clickSecondRowOutcome env gridPollBudget allowEmpty = .errorNoRecords) →
        (gridLoop env 0 gridPollBudget false).1 = gridPollBudget) ∧
      ((∀ k, k ≤ gridPollBudget → (env k).rowCount < 2) →
        (∃ k, k < gridPollBudget ∧ (env k).noRecordsVisible = true) →
        clickSecondRowOutcome env gridPollBudget allowEmpty =
          (if allowEmpty then .returnedNotClicked else .errorNoRecords)) ∧
      ((∀ k, k ≤ gridPollBudget → (env k).rowCount < 2) →
        (∀ k, k < gridPollBudget → (env k).noRecordsVisible = false) →
        clickSecondRowOutcome env gridPollBudget allowEmpty = .errorNotLoaded) := by
  intro env allowEmpty
  refine ⟨?_, ?_, ?_, ?_⟩
  · rintro ⟨k, hk, h2⟩
    have hbreak := gridLoop_break env gridPollBudget 0 false ⟨k, by omega, by omega, h2⟩
    have hnot : ¬ (env (gridLoop env 0 gridPollBudget false).1).rowCount < 2 := by omega
    simp [clickSecondRowOutcome, hnot]
  · intro hout
    rcases gridLoop_exit env gridPollBudget 0 false with h | h
    · simpa using h
    · have hnot : ¬ (env (gridLoop env 0 gridPollBudget false).1).rowCount < 2 := by omega
      have : clickSecondRowOutcome env gridPollBudget allowEmpty = .rowClicked := by
        simp [clickSecondRowOutcome, hnot]
      rcases hout with hout | hout <;> rw [hout] at this <;> cases this
  · intro hlow hflag
    have hfull := gridLoop_full env gridPollBudget 0 false
      (fun j _ hj => hlow j (by omega))
    have hany : anyEmptyFlag env 0 gridPollBudget = true :=
      (anyEmptyFlag_iff env gridPollBudget 0).mpr
        (by rcases hflag with ⟨k, hk, hv⟩; exact ⟨k, by omega, by omega, hv⟩)
    have hcount : (env gridPollBudget).rowCount < 2 := hlow _ (Nat.le_refl _)
    simp [clickSecondRowOutcome, hfull, hany, hcount]
  · intro hlow hflag
    have hfull := gridLoop_full env gridPollBudget 0 false
      (fun j _ hj => hlow j (by omega))
    have hany : anyEmptyFlag env 0 gridPollBudget = false := by
      cases hf : anyEmptyFlag env 0 gridPollBudget
      · rfl
      · rcases (anyEmptyFlag_iff env gridPollBudget 0).mp hf with ⟨j, _, hj2, hj3⟩
        rw [hflag j (by omega)] at hj3
        cases hj3
    have hcount : (env gridPollBudget).rowCount < 2 := hlow _ (Nat.le_refl _)
    simp [clickSecondRowOutcome, hfull, hany, hcount]

/-- Claim C5 witness: a trace that already shows two data rows at the first
poll resolves as ready-with-data. -/
theorem spec_C5_grid_readiness_witness :
    clickSecondRowOutcome (fun _ => ⟨2, false⟩) gridPollBudget true = .rowClicked :=
  (spec_C5_grid_readiness (fun _ => ⟨2, false⟩) true).1
    ⟨0, by decide, by exact Nat.le_refl 2⟩

/-! ## Stress driver worker pool (unnamed stress spec, `worker`).

`CONCURRENCY` copies of the async `worker` loop share the cursor `next` and
the `timings` array. Each loop iteration reads `next` and increments it with
no intervening `await` (one atomic step in the cooperative model), exits when
the claimed index is out of range, otherwise runs the awaited login body and
pushes one duration. Worker interleaving is modelled by a step relation on
pool states; a recorded duration is identified by the index it was recorded
for, so exactly-once dispatch is the statement that the final `timings` list
is a permutation of `range N`. -/

/-- Control point of one worker loop. -/
inductive WorkerPhase where
  | idle : WorkerPhase
  | running (i : Nat) : WorkerPhase
  | finished : WorkerPhase
deriving DecidableEq, Repr

/-- The shared pool state: the cursor `next`, the per-worker control points,
and the recorded timings (identified by claimed index). -/
structure PoolState where
  next : Nat
  workers : List WorkerPhase
  timings : List Nat
deriving DecidableEq, Repr

/-- Interleaving semantics of the worker loops: `claim` is the atomic
read-and-increment of the cursor when it is still in range, `exitLoop` the
read-and-increment that finds the cursor out of range and returns, `record`
the completion of the awaited login body followed by the push of one
duration. -/
inductive PoolStep (N : Nat) : PoolState → PoolState → Prop where
  | claim (s : PoolState) (w : Nat) (hw : w < s.workers.length)
      (hidle : s.workers.get ⟨w, hw⟩ = .idle) (hlt : s.next < N) :
      PoolStep N s ⟨s.next + 1, s.workers.set w (.running s.next), s.timings⟩
  | exitLoop (s : PoolState) (w : Nat) (hw : w < s.workers.length)
      (hidle : s.workers.get ⟨w, hw⟩ = .idle) (hge : N ≤ s.next) :
      PoolStep N s ⟨s.next + 1, s.workers.set w .finished, s.timings⟩
  | record (s : PoolState) (w : Nat) (hw : w < s.workers.length) (i : Nat)
      (hrun : s.workers.get ⟨w, hw⟩ = .running i) :
      PoolStep N s ⟨s.next, s.workers.set w .idle, s.timings ++ [i]⟩

/-- Initial pool state for `c` workers: cursor 0, all workers at the loop
head, no timings. -/
def poolInit (c : Nat) : PoolState := ⟨0, List.replicate c .idle, []⟩

/-- Reachability under any interleaving of worker steps. -/
def PoolReachable (N c : Nat) (s : PoolState) : Prop :=
  Relation.ReflTransGen (PoolStep N) (poolInit c) s

/-- The run is over: every worker has left its loop. -/
def PoolFinal (s : PoolState) : Prop := ∀ w ∈ s.workers, w = .finished

/-- How many workers currently hold index `i`. -/
def runningCount (workers : List WorkerPhase) (i : Nat) : Nat :=
  workers.count (.running i)

/-- Pool invariant: the worker list keeps its size; each index below
`min next N` is held exactly once, either already recorded or by a running
worker, and no other index is held; a finished worker forces the cursor to
have passed `N`. -/
def PoolInv (N c : Nat) (s : PoolState) : Prop :=
  s.workers.length = c ∧
  (∀ i, s.timings.count i + runningCount s.workers i =
      if i < min s.next N then 1 else 0) ∧
  (∀ w ∈ s.workers, w = .finished → N ≤ s.next)

/-- Count bookkeeping for a positional list update, in addition form. -/
theorem count_set_add {α : Type} [DecidableEq α] :
    ∀ (l : List α) (n : Nat) (hn : n < l.length) (x a : α),
      (l.set n x).count a + (if l.get ⟨n, hn⟩ = a then 1 else 0) =
        l.count a + (if x = a then 1 else 0) := by
  intro l
  induction l with
  | nil => intro n hn; simp at hn
  | cons y ys ih =>
    intro n hn x a
    cases n with
    | zero =>
      simp only [List.set, List.get, List.count_cons]
      by_cases h1 : y = a <;> by_cases h2 : x = a <;> simp [h1, h2]
    | succ m =>
      have hm : m < ys.length := by simpa using hn
      have := ih m hm x a
      simp only [List.get_eq_getElem] at this
      simp only [List.set, List.get, List.count_cons, List.get_eq_getElem]
      by_cases h1 : y = a <;> simp [h1] <;> omega

/-- Element count of `List.range`. -/
theorem count_range_eq (n a : Nat) :
    (List.range n).count a = if a < n then 1 else 0 := by
  induction n with
  | zero => simp
  | succ m ih =>
    rw [List.range_succ, List.count_append, ih]
    simp only [List.count_cons, List.count_nil, beq_iff_eq, Nat.zero_add]
    by_cases h2 : m = a
    · subst h2
      simp [Nat.lt_irrefl, Nat.lt_succ_self]
    · have hiff : (a < m + 1) ↔ (a < m) := by omega
      simp [h2, hiff]

/-- The initial pool state satisfies the invariant. -/
theorem poolInit_inv (N c : Nat) : PoolInv N c (poolInit c) := by
  refine ⟨by simp [poolInit], ?_, ?_⟩
  · intro i
    have hz : (List.replicate c WorkerPhase.idle).count (.running i) = 0 :=
      List.count_eq_zero.mpr (fun hmem => by cases List.eq_of_mem_replicate hmem)
    show ([] : List Nat).count i + runningCount (List.replicate c .idle) i =
      if i < min 0 N then 1 else 0
    unfold runningCount
    rw [hz]
    simp
  · intro w hw hfin
    simp only [poolInit] at hw
    have := List.eq_of_mem_replicate hw
    rw [this] at hfin
    cases hfin

/-- Every worker step preserves the pool invariant. -/
theorem poolStep_inv (N c : Nat) (s t : PoolState)
    (hinv : PoolInv N c s) (hstep : PoolStep N s t) : PoolInv N c t := by
  obtain ⟨hlen, hcount, hdone⟩ := hinv
  cases hstep with
  | claim w hw hidle hlt =>
    refine ⟨by simpa using hlen, ?_, ?_⟩
    · intro i
      show s.timings.count i + runningCount (s.workers.set w (.running s.next)) i =
        if i < min (s.next + 1) N then 1 else 0
      have hset := count_set_add s.workers w hw (.running s.next) (.running i)
      rw [hidle] at hset
      have hold := hcount i
      have hmin1 : min s.next N = s.next := Nat.min_eq_left (Nat.le_of_lt hlt)
      have hmin2 : min (s.next + 1) N = s.next + 1 :=
        Nat.min_eq_left (Nat.succ_le_of_lt hlt)
      rw [hmin1] at hold
      rw [hmin2]
      unfold runningCount at hold ⊢
      by_cases hi : s.next = i
      · subst hi
        have hfalse : ¬ ((WorkerPhase.idle : WorkerPhase) = .running s.next) := by
          intro h; cases h
        rw [if_neg hfalse, if_pos rfl] at hset
        have hnotlt : ¬ s.next < s.next := Nat.lt_irrefl _
        rw [if_neg hnotlt] at hold
        rw [if_pos (Nat.lt_succ_self _)]
        omega
      · have hfalse1 : ¬ ((WorkerPhase.idle : WorkerPhase) = .running i) := by
          intro h; cases h
        have hfalse2 : ¬ ((WorkerPhase.running s.next : WorkerPhase) = .running i) := by
          intro h; cases h; exact hi rfl
        rw [if_neg hfalse1, if_neg hfalse2] at hset
        by_cases hio : i < s.next
        · rw [if_pos hio] at hold
          rw [if_pos (by omega)]
          omega
        · rw [if_neg hio] at hold
          rw [if_neg (by omega)]
          omega
    · intro w2 hw2 hfin
      show N ≤ s.next + 1
      rcases List.mem_or_eq_of_mem_set hw2 with hmem | heq
      · have := hdone w2 hmem hfin
        omega
      · rw [heq] at hfin; cases hfin
  | exitLoop w hw hidle hge =>
    refine ⟨by simpa using hlen, ?_, ?_⟩
    · intro i
      show s.timings.count i + runningCount (s.workers.set w .finished) i =
        if i < min (s.next + 1) N then 1 else 0
      have hset := count_set_add s.workers w hw .finished (.running i)
      rw [hidle] at hset
      have hfalse1 : ¬ ((WorkerPhase.idle : WorkerPhase) = .running i) := by
        intro h; cases h
      have hfalse2 : ¬ ((WorkerPhase.finished : WorkerPhase) = .running i) := by
        intro h; cases h
      rw [if_neg hfalse1, if_neg hfalse2] at hset
      have hold := hcount i
      have hmin1 : min s.next N = N := Nat.min_eq_right hge
      have hmin2 : min (s.next + 1) N = N := Nat.min_eq_right (by omega)
      rw [hmin1] at hold
      rw [hmin2]
      unfold runningCount at hold ⊢
      omega
    · intro w2 hw2 hfin
      show N ≤ s.next + 1
      omega
  | record w hw i hrun =>
    refine ⟨by simpa using hlen, ?_, ?_⟩
    · intro j
      show (s.timings ++ [i]).count j + runningCount (s.workers.set w .idle) j =
        if j < min s.next N then 1 else 0
      have hset := count_set_add s.workers w hw .idle (.running j)
      rw [hrun] at hset
      have hfalse1 : ¬ ((WorkerPhase.idle : WorkerPhase) = .running j) := by
        intro h; cases h
      rw [if_neg hfalse1] at hset
      have hold := hcount j
      rw [List.count_append]
      simp only [List.count_cons, List.count_nil, beq_iff_eq, Nat.zero_add]
      unfold runningCount at hold ⊢
      by_cases hij : i = j
      · subst hij
        rw [if_pos rfl] at hset
        rw [if_pos rfl]
        omega
      · have hfalse2 : ¬ ((WorkerPhase.running i : WorkerPhase) = .running j) := by
          intro h; cases h; exact hij rfl
        rw [if_neg hfalse2] at hset
        rw [if_neg hij]
        omega
    · intro w2 hw2 hfin
      show N ≤ s.next
      rcases List.mem_or_eq_of_mem_set hw2 with hmem | heq
      · exact hdone w2 hmem hfin
      · rw [heq] at hfin; cases hfin

/-- The invariant holds in every reachable pool state. -/
theorem poolReachable_inv (N c : Nat) (s : PoolState)
    (h : PoolReachable N c s) : PoolInv N c s := by
  induction h with
  | refl => exact poolInit_inv N c
  | tail hsteps hstep ih => exact poolStep_inv N c _ _ ih hstep

/-- Claim C1: exactly-once dispatch of the stress driver. For every
credential count N and every worker count c at least 1, in every state
reachable under any interleaving of the worker loops in which every worker
has exited, the recorded timings are a permutation of the indices 0..N-1:
exactly N durations are recorded and every index in [0, N) was claimed by
exactly one worker — none twice, none skipped. -/
theorem spec_C1_stress_exactly_once (N c : Nat) (hc : 1 ≤ c) (s : PoolState)
    (hreach : PoolReachable N c s) (hfinal : PoolFinal s) :
    s.timings.Perm (List.range N) ∧ s.timings.length = N := by
  obtain ⟨hlen, hcount, hdone⟩ := poolReachable_inv N c s hreach
  have hne : s.workers ≠ [] := by
    intro h
    rw [h] at hlen
    simp at hlen
    omega
  obtain ⟨w0, hw0⟩ := List.exists_mem_of_ne_nil s.workers hne
  have hNnext : N ≤ s.next := hdone w0 hw0 (hfinal w0 hw0)
  have hminN : min s.next N = N := Nat.min_eq_right hNnext
  have hrun0 : ∀ i, runningCount s.workers i = 0 := by
    intro i
    refine List.count_eq_zero.mpr ?_
    intro hmem
    have := hfinal _ hmem
    cases this
  have hperm : s.timings.Perm (List.range N) := by
    refine List.perm_iff_count.mpr ?_
    intro a
    have h1 := hcount a
    rw [hminN, hrun0 a] at h1
    rw [count_range_eq]
    omega
  exact ⟨hperm, by rw [hperm.length_eq, List.length_range]⟩

/-- Claim C1 witness: with N = 1 and one worker, the three-step run
claim-record-exit reaches the final state with timings `[0]`, which is a
permutation of `range 1` of length 1. -/
theorem spec_C1_stress_exactly_once_witness :
    ([0] : List Nat).Perm (List.range 1) ∧ ([0] : List Nat).length = 1 := by
  have step1 : PoolStep 1 (poolInit 1) ⟨1, [.running 0], []⟩ :=
    PoolStep.claim (poolInit 1) 0 (by decide) rfl (by decide)
  have step2 : PoolStep 1 ⟨1, [.running 0], []⟩ ⟨1, [.idle], [0]⟩ :=
    PoolStep.record ⟨1, [.running 0], []⟩ 0 (by decide) 0 rfl
  have step3 : PoolStep 1 ⟨1, [.idle], [0]⟩ ⟨2, [.finished], [0]⟩ :=
    PoolStep.exitLoop ⟨1, [.idle], [0]⟩ 0 (by decide) rfl (by decide)
  have hreach : PoolReachable 1 1 ⟨2, [.finished], [0]⟩ :=
    Relation.ReflTransGen.tail
      (Relation.ReflTransGen.tail (Relation.ReflTransGen.tail
        Relation.ReflTransGen.refl step1) step2) step3
  have hfinal : PoolFinal ⟨2, [.finished], [0]⟩ := by
    intro w hw
    simp only [PoolState.workers] at hw
    simpa using hw
  exact spec_C1_stress_exactly_once 1 1 (by decide) ⟨2, [.finished], [0]⟩ hreach hfinal

/-- Claim C7 witness: in the concrete header map with an `Accept` entry and
an `Authorization` entry, the preserved-entry conjunct keeps `Accept`. -/
theorem spec_C7_header_redaction_witness :
    ("Accept", "x") ∈ redactHeaders [("Accept", "x"), ("Authorization", "t")] :=
  (spec_C7_header_redaction [("Accept", "x"), ("Authorization", "t")]).2.1
    ("Accept", "x") (by decide) (by decide)
